import Mathlib

/-!
Verification of the preset matching and indexing engine
(`src/modules/presets/index.js`).

The JavaScript module is shallowly embedded:

* a preset's tag pattern is an ordered association list (JS objects keep
  insertion order for string keys, and the code relies on "first declared
  key" semantics);
* the tag index `_index` is a total function from geometry kind and tag key
  to the bucket list, with `[]` standing for a missing bucket (the way the
  code uses buckets, a missing bucket and an empty one are observationally
  equal);
* the scoring operation `matchScore` and the generic-fallback predicate
  `isFallback` of a preset live in `presets/preset.js`, outside this module;
  they are carried as opaque data on each preset record;
* `all.fallback(geometry)` comes from `presets/collection.js`, outside this
  module; it is passed in as an explicit environment parameter (`fb`), with
  `all.fallback(geometry).id` modelled as a string normalisation function on
  geometry names for the ribbon-list operations.
-/

/-- The five geometry kinds of the engine (`_index` has exactly these keys). -/
inductive Geom where
  | point
  | vertex
  | line
  | area
  | relation
deriving DecidableEq

/-- A preset record. `tags` is the ordered tag pattern, `geometry` the list of
geometry kinds it declares. `matchScore` and `isFallback` are the scoring
operation and generic-fallback predicate implemented outside this module
(`presets/preset.js`), carried as opaque data. -/
structure Preset where
  id : String
  tags : List (String × String)
  geometry : List Geom
  searchable : Bool
  suggestion : Bool
  replacement : Bool
  isFallback : Bool
  matchScore : List (String × String) → Int

/-- The ordered list of keys of a preset's tag pattern. -/
def tagKeys (p : Preset) : List String :=
  p.tags.map Prod.fst

/-- The tag index `_index`: geometry kind and tag key to bucket. -/
abbrev TagIndex := Geom → String → List Preset

/-- The empty index (`{ point: {}, vertex: {}, line: {}, area: {}, relation: {} }`). -/
def emptyIndex : TagIndex := fun _ _ => []

/-- `(g[k] = g[k] || []).push(preset)`: append `p` to the bucket at `(g0, k0)`. -/
def pushBucket (idx : TagIndex) (g0 : Geom) (k0 : String) (p : Preset) : TagIndex :=
  fun g k => if g = g0 ∧ k = k0 then idx g k ++ [p] else idx g k

/-- The inner loop of the index pass of `build`:
`for (var k in preset.tags) { (g[k] = g[k] || []).push(preset); }`. -/
def pushTags (idx : TagIndex) (g0 : Geom) (p : Preset) : TagIndex :=
  p.tags.foldl (fun i kv => pushBucket i g0 kv.1 p) idx

/-- The geometry loop of the index pass of `build`: for every geometry kind the
preset declares, push it into the buckets of all its tag keys. -/
def addPresetToIndex (idx : TagIndex) (p : Preset) : TagIndex :=
  p.geometry.foldl (fun i g0 => pushTags i g0 p) idx

/-- The index pass of `build` (lines 235-245): one pass over the whole
collection, pushing into the existing `_index` (the index is NOT cleared by
`build` itself, only by `init` and `reset`). -/
def buildIndex (idx : TagIndex) (coll : List Preset) : TagIndex :=
  coll.foldl addPresetToIndex idx

/-- Modelled from the spec: `presetCollection.index(id)` plus
`all.collection[existing] = ...` (`presets/collection.js` is outside this
module). Rebuilding replaces the first entry with the same id in place,
preserving collection order. -/
def replaceFirstById : List Preset → Preset → List Preset
  | [], _ => []
  | q :: rest, p => if q.id = p.id then p :: rest else q :: replaceFirstById rest p

/-- One step of the preset pass of `build`: replace an existing entry with the
same id, or append a new one (`if (existing !== -1) ... else collection.push`). -/
def upsert (coll : List Preset) (p : Preset) : List Preset :=
  if coll.any (fun q => q.id == p.id) then replaceFirstById coll p else coll ++ [p]

/-- The preset pass of `build`: fold the catalog's presets (in declaration
order) into the collection. -/
def buildCollection (coll : List Preset) (d : List Preset) : List Preset :=
  d.foldl upsert coll

/-- The state owned by the catalog index that the claims are about:
`all.collection` and `_index`. -/
structure PresetState where
  collection : List Preset
  index : TagIndex

/-- `all.build(d, visible)` restricted to the parts the claims depend on:
update the collection from the catalog, then run the index pass over the
whole collection on top of the existing index. -/
def build (st : PresetState) (d : List Preset) : PresetState :=
  { collection := buildCollection st.collection d,
    index := buildIndex st.index (buildCollection st.collection d) }

/-- The cleared state produced by `all.reset` / the first lines of `all.init`:
empty collection, empty index. -/
def resetState : PresetState :=
  { collection := [], index := emptyIndex }

/-- `all.init`: clear everything, then build from the built-in catalog. -/
def init (d : List Preset) : PresetState :=
  build resetState d

/-- The success path of `all.fromExternal`: `all.reset()`, then
`all.build(data.presets, false)`, then `all.build(externalPresets, true)`. -/
def fromExternalSuccess (builtin external : List Preset) : PresetState :=
  build (build resetState builtin) external

/-! ## The matcher (`all.matchTags`, lines 53-84) -/

/-- The regex test `/^addr:/.test(k)`: the characters of `k` start with the
five characters `addr:`. -/
def isAddrKey (k : String) : Bool :=
  "addr:".data.isPrefixOf k.data

/-- The address candidate: if any key of the input tags has the `addr:`
pattern (`/^addr:/`) and the geometry's `addr:*` bucket is set, the candidate
is the first preset of that bucket (the assignment inside the key loop always
stores the same value, so it is order-independent). -/
def addressCandidate (idx : TagIndex) (tags : List (String × String)) (geometry : Geom) :
    Option Preset :=
  if tags.any (fun kv => isAddrKey kv.1) then (idx geometry "addr:*").head? else none

/-- The body of the scoring loop:
`if (score > best) { best = score; match = keyMatches[i]; }`. -/
def scoreStep (tags : List (String × String)) (st : Int × Option Preset) (c : Preset) :
    Int × Option Preset :=
  let score := c.matchScore tags
  if st.1 < score then (score, some c) else st

/-- The scoring loops of `matchTags`: over each key of the input tags, over
the bucket for that key, starting from `best = -1`, `match = undefined`. -/
def bestMatch (idx : TagIndex) (tags : List (String × String)) (geometry : Geom) :
    Int × Option Preset :=
  tags.foldl (fun st kv => (idx geometry kv.1).foldl (scoreStep tags) st) (-1, none)

/-- `all.matchTags(tags, geometry)`. `fb` is `all.fallback` (outside this
module): the generic fallback preset registered for a geometry. -/
def matchTags (idx : TagIndex) (fb : Geom → Preset) (tags : List (String × String))
    (geometry : Geom) : Preset :=
  let address := addressCandidate idx tags geometry
  let m := (bestMatch idx tags geometry).2
  let m2 : Option Preset :=
    match address, m with
    | some a, none => some a
    | some a, some mp => if mp.isFallback then some a else some mp
    | none, mo => mo
  m2.getD (fb geometry)

/-! ## `all.allowsVertex` (lines 86-100) -/

/-- The result of `osmNodeGeometriesForTags(entity.tags)` (external collaborator
from `osm/tags.js`): which node geometries the tags allow. JS truthiness of the
`vertex` / `point` members is modelled by two booleans. -/
structure NodeGeoms where
  vertex : Bool
  point : Bool

/-- The part of an entity that `allowsVertex` reads: its `type` and its tags. -/
structure Entity where
  type : String
  tags : List (String × String)

/-- `all.allowsVertex(entity, resolver)`. The `resolver.transient` wrapper is
pure memoisation and is dropped; `isOnAddressLine` and the external geometry
classification are passed as explicit inputs. -/
def allowsVertex (entity : Entity) (isOnAddressLine : Bool) (geoms : NodeGeoms) : Bool :=
  if entity.type ≠ "node" then false
  else if entity.tags.length = 0 then true
  else if isOnAddressLine then true
  else if geoms.vertex then true
  else if geoms.point then false
  else true

/-! ## `all.areaKeys` (lines 114-149) -/

/-- The permanent exclusion list:
`var ignore = ['barrier', 'highway', 'footway', 'railway', 'type'];`. -/
def ignoreKeys : List String :=
  ["barrier", "highway", "footway", "railway", "type"]

/-- `for (var key in d.tags) break; if (!key) return;` — the first declared
tag key (and its value); `none` when there is no first key or the first key is
the empty string (both are falsy in JS). -/
def primaryKeyVal (p : Preset) : Option (String × String) :=
  match p.tags.head? with
  | none => none
  | some (k, v) => if k = "" then none else some (k, v)

/-- The whitelist/blacklist structure returned by `areaKeys`: an ordered map
from whitelisted key to the list of blacklisted values under it. -/
abbrev AreaMap := List (String × List String)

/-- `key in areaKeys`. -/
def containsKey (m : AreaMap) (k : String) : Bool :=
  m.any (fun e => e.1 == k)

/-- The blacklist set under key `k` (empty when `k` is not a key of the map). -/
def valuesOf (m : AreaMap) (k : String) : List String :=
  match m.find? (fun e => e.1 == k) with
  | some e => e.2
  | none => []

/-- `areaKeys[key] = areaKeys[key] || {};` — add the key with an empty
blacklist unless it is already present. -/
def insertKeyIfAbsent (m : AreaMap) (k : String) : AreaMap :=
  if containsKey m k then m else m ++ [(k, [])]

/-- `areaKeys[key][value] = true;` — add `v` to the blacklist set under `k`
(object keys are a set: adding an existing value is a no-op). -/
def addValue (m : AreaMap) (k v : String) : AreaMap :=
  m.map (fun e => if e.1 == k then (e.1, if v ∈ e.2 then e.2 else e.2 ++ [v]) else e)

/-- `!p.suggestion && !p.replacement` filter applied before both passes. -/
def presetsFiltered (coll : List Preset) : List Preset :=
  coll.filter (fun p => !p.suggestion && !p.replacement)

/-- Pass 1 (whitelist) body of `areaKeys`. -/
def areaWhitelistStep (m : AreaMap) (d : Preset) : AreaMap :=
  match primaryKeyVal d with
  | none => m
  | some (k, _) =>
    if k ∈ ignoreKeys then m
    else if Geom.area ∈ d.geometry then insertKeyIfAbsent m k
    else m

/-- Pass 2 (blacklist) body of `areaKeys`. -/
def areaBlacklistStep (m : AreaMap) (d : Preset) : AreaMap :=
  match primaryKeyVal d with
  | none => m
  | some (k, v) =>
    if k ∈ ignoreKeys then m
    else if containsKey m k = true ∧ Geom.line ∈ d.geometry ∧ v ≠ "*" then addValue m k v
    else m

/-- `all.areaKeys()`: whitelist pass then blacklist pass over the filtered
collection. -/
def areaKeys (coll : List Preset) : AreaMap :=
  (presetsFiltered coll).foldl areaBlacklistStep
    ((presetsFiltered coll).foldl areaWhitelistStep [])

/-! ## Ribbon lists (favorites and recents, lines 321-520) -/

/-- A ribbon item. The stored preset is represented by its id: `item.matches`
compares `item.preset.id === preset.id && item.geometry === geometry`, and the
persisted minified form keeps only the id, so the id is the identity the list
operations observe. -/
structure RibbonItem where
  presetId : String
  geometry : String
  source : String
deriving DecidableEq

/-- `item.matches(preset, geometry)` (with the preset given by id). -/
def RibbonItem.matchesKey (item : RibbonItem) (pid g : String) : Bool :=
  item.presetId == pid && item.geometry == g

/-- `all.toggleFavorite(preset, geometry)` acting on the favorites list.
`fb` models the geometry normalisation `all.fallback(geometry).id`.
If an equal item exists it is removed (`splice(indexOf, 1)` removes the first
match); otherwise, when the list holds exactly 10 items the last one is popped,
and the new item is appended. -/
def toggleFavorite (fb : String → String) (favs : List RibbonItem) (preset : Preset)
    (geometry : String) : List RibbonItem :=
  let g := fb geometry
  match favs.find? (fun it => it.matchesKey preset.id g) with
  | some _ => favs.eraseP (fun it => it.matchesKey preset.id g)
  | none =>
    let favs2 := if favs.length = 10 then favs.dropLast else favs
    favs2 ++ [⟨preset.id, g, "favorite"⟩]

/-- `all.addFavorite(preset, geometry)`: append the new item when no equal one
exists. There is no capacity check on this path. -/
def addFavorite (fb : String → String) (favs : List RibbonItem) (preset : Preset)
    (geometry : String) : List RibbonItem :=
  let g := fb geometry
  match favs.find? (fun it => it.matchesKey preset.id g) with
  | some _ => favs
  | none => favs ++ [⟨preset.id, g, "favorite"⟩]

/-- `all.setMostRecent(preset, geometry)` acting on the recents list.
No-op in guided-tour mode (`context.inIntro()`) or for non-searchable presets;
otherwise remove the existing equal entry (keeping it) or create a new item,
pop the last element if the list now holds exactly 30, and prepend. -/
def setMostRecent (fb : String → String) (inIntro : Bool) (items : List RibbonItem)
    (preset : Preset) (geometry : String) : List RibbonItem :=
  if inIntro then items
  else if preset.searchable = false then items
  else
    let g := fb geometry
    let pr : RibbonItem × List RibbonItem :=
      match items.find? (fun it => it.matchesKey preset.id g) with
      | some it => (it, items.eraseP (fun it2 => it2.matchesKey preset.id g))
      | none => (⟨preset.id, g, "recent"⟩, items)
    let items2 := if pr.2.length = 30 then pr.2.dropLast else pr.2
    pr.1 :: items2

/-- The favorite/recent add operations the capacity claim quantifies over. -/
inductive RibbonOp where
  | toggleFav (preset : Preset) (geometry : String)
  | addFav (preset : Preset) (geometry : String)
  | setRecent (preset : Preset) (geometry : String) (inIntro : Bool)

/-- Whether an operation is an `addFavorite` call. -/
def RibbonOp.isAddFav : RibbonOp → Bool
  | RibbonOp.addFav _ _ => true
  | _ => false

/-- Apply one ribbon operation to the pair (favorites, recents). -/
def applyOp (fb : String → String) (st : List RibbonItem × List RibbonItem) :
    RibbonOp → List RibbonItem × List RibbonItem
  | RibbonOp.toggleFav p g => (toggleFavorite fb st.1 p g, st.2)
  | RibbonOp.addFav p g => (addFavorite fb st.1 p g, st.2)
  | RibbonOp.setRecent p g intro => (st.1, setMostRecent fb intro st.2 p g)

/-- Run a sequence of ribbon operations. -/
def runOps (fb : String → String) (st : List RibbonItem × List RibbonItem)
    (ops : List RibbonOp) : List RibbonItem × List RibbonItem :=
  ops.foldl (applyOp fb) st

/-- The default favorites seeded when nothing is persisted:
generic point/line/area. -/
def defaultFavorites : List RibbonItem :=
  [⟨"point", "point", "favorite"⟩, ⟨"line", "line", "favorite"⟩, ⟨"area", "area", "favorite"⟩]

/-! ## Concrete data used by witnesses and counterexamples -/

/-- A generic fallback preset for the point geometry. -/
def fallbackPointEx : Preset :=
  ⟨"point", [], [Geom.point], true, false, false, true, fun _ => 0⟩

/-- A concrete address preset ("Address"). -/
def addrPresetEx : Preset :=
  ⟨"address", [("addr:*", "*")], [Geom.point, Geom.vertex], true, false, false, false,
    fun _ => 0⟩

/-- An index whose only bucket is `point / addr:*`. -/
def addrIdxEx : TagIndex :=
  fun g k => if g = Geom.point ∧ k = "addr:*" then [addrPresetEx] else []

/-- A preset whose scoring operation always returns 5. -/
def scoreFiveEx : Preset :=
  ⟨"five", [("shop", "bakery")], [Geom.point], true, false, false, false, fun _ => 5⟩

/-- A concrete preset used by ribbon-list witnesses: only its id (and
searchability) matter to the ribbon operations. -/
def mkPEx (s : String) : Preset :=
  ⟨s, [], [], true, false, false, false, fun _ => 0⟩

/-- A favorites state holding two equal items (such a state is expressible,
e.g. loadable from persisted storage, though not reachable by the list
operations themselves). -/
def dupFavs : List RibbonItem :=
  [⟨"x", "point", "favorite"⟩, ⟨"x", "point", "favorite"⟩]

/-- A full favorites list: 10 pairwise distinct items. -/
def tenFavs : List RibbonItem :=
  [⟨"f1", "point", "favorite"⟩, ⟨"f2", "point", "favorite"⟩, ⟨"f3", "point", "favorite"⟩,
   ⟨"f4", "point", "favorite"⟩, ⟨"f5", "point", "favorite"⟩, ⟨"f6", "point", "favorite"⟩,
   ⟨"f7", "point", "favorite"⟩, ⟨"f8", "point", "favorite"⟩, ⟨"f9", "point", "favorite"⟩,
   ⟨"f10", "point", "favorite"⟩]

/-- Eight `addFavorite` operations on fresh pairs. -/
def addEightOps : List RibbonOp :=
  [RibbonOp.addFav (mkPEx "a1") "point", RibbonOp.addFav (mkPEx "a2") "point",
   RibbonOp.addFav (mkPEx "a3") "point", RibbonOp.addFav (mkPEx "a4") "point",
   RibbonOp.addFav (mkPEx "a5") "point", RibbonOp.addFav (mkPEx "a6") "point",
   RibbonOp.addFav (mkPEx "a7") "point", RibbonOp.addFav (mkPEx "a8") "point"]

/-- The property C9 requires of every blacklisted value: it was contributed by
a non-suggestion, non-replacement preset of the catalog whose first declared
tag key is the whitelisted key, supporting line geometry, with a concrete
(non-wildcard) value. -/
def GoodEntry (coll : List Preset) (k v : String) : Prop :=
  ∃ d, d ∈ coll ∧ d.suggestion = false ∧ d.replacement = false ∧
    primaryKeyVal d = some (k, v) ∧ Geom.line ∈ d.geometry ∧ v ≠ "*"

/-- A catalog for the C9 witness: an area preset whitelists `building`; a line
preset with first key `building` and concrete value `wall` blacklists that
value; a highway line preset contributes nothing. -/
def areaCollEx : List Preset :=
  [⟨"area/building", [("building", "yes")], [Geom.area], true, false, false, false, fun _ => 0⟩,
   ⟨"line/wall", [("building", "wall")], [Geom.line], true, false, false, false, fun _ => 0⟩,
   ⟨"line/road", [("highway", "residential")], [Geom.line, Geom.area], true, false, false,
     false, fun _ => 0⟩]

/-- A one-preset catalog used by C2's witness and counterexample. -/
def bakeryP : Preset :=
  ⟨"shop/bakery", [("shop", "bakery")], [Geom.point], true, false, false, false, fun _ => 0⟩

/-! ## Helper lemmas for the matcher -/

/-- If every key of the iterated list has an empty bucket, the scoring loops
leave the state unchanged. -/
theorem foldKeys_id (idx : TagIndex) (geometry : Geom) (tags0 : List (String × String)) :
    ∀ (l : List (String × String)), (∀ kv ∈ l, idx geometry kv.1 = []) →
    ∀ st, l.foldl (fun st kv => (idx geometry kv.1).foldl (scoreStep tags0) st) st = st := by
  intro l
  induction l with
  | nil => intro _ st; rfl
  | cons kv t ih =>
    intro h st
    simp only [List.foldl_cons]
    rw [h kv (by simp)]
    exact ih (fun x hx => h x (by simp [hx])) st

/-- When every key of the input tags has an empty bucket, the internal best
match is absent. -/
theorem bestMatch_none_of_empty (idx : TagIndex) (tags : List (String × String))
    (geometry : Geom) (hEmpty : ∀ kv ∈ tags, idx geometry kv.1 = []) :
    bestMatch idx tags geometry = (-1, none) :=
  foldKeys_id idx geometry tags tags hEmpty (-1, none)

/-- C4: `matchTags` never returns an empty result: when no indexed preset
applies (every key of the input tags has an empty bucket for the requested
geometry) and no address candidate applies, it returns the generic fallback
preset registered for the requested geometry. -/
theorem matchTags_returns_fallback (idx : TagIndex) (fb : Geom → Preset)
    (tags : List (String × String)) (geometry : Geom)
    (hEmpty : ∀ kv ∈ tags, idx geometry kv.1 = [])
    (hAddr : addressCandidate idx tags geometry = none) :
    matchTags idx fb tags geometry = fb geometry := by
  unfold matchTags
  rw [hAddr, bestMatch_none_of_empty idx tags geometry hEmpty]
  rfl

/-- Witness for C4: with an empty index and a non-address tag, the matcher
returns the fallback preset for the geometry. -/
theorem matchTags_returns_fallback_witness :
    matchTags emptyIndex (fun _ => fallbackPointEx) [("name", "x")] Geom.point
      = fallbackPointEx :=
  matchTags_returns_fallback emptyIndex (fun _ => fallbackPointEx) [("name", "x")] Geom.point
    (fun _ _ => rfl) rfl

/-- C5: when the input tags contain an `addr:`-pattern key, the geometry's
`addr:*` bucket is non-empty, and the otherwise-best scoring match is absent
or is a fallback (generic) preset, `matchTags` returns the first preset of the
`addr:*` bucket. -/
theorem matchTags_address_wins (idx : TagIndex) (fb : Geom → Preset)
    (tags : List (String × String)) (geometry : Geom) (a : Preset)
    (hAny : tags.any (fun kv => isAddrKey kv.1) = true)
    (hHead : (idx geometry "addr:*").head? = some a)
    (hBest : (bestMatch idx tags geometry).2 = none ∨
      ∃ mp, (bestMatch idx tags geometry).2 = some mp ∧ mp.isFallback = true) :
    matchTags idx fb tags geometry = a := by
  have hAddr : addressCandidate idx tags geometry = some a := by
    simp [addressCandidate, hAny, hHead]
  unfold matchTags
  rw [hAddr]
  rcases hBest with h | ⟨mp, hmp, hf⟩
  · rw [h]
    rfl
  · rw [hmp]
    simp only [hf]
    rfl

/-- Witness for C5: one `addr:housenumber` tag, an index holding only the
`addr:*` bucket, no scored match; the address preset wins. -/
theorem matchTags_address_wins_witness :
    matchTags addrIdxEx (fun _ => fallbackPointEx) [("addr:housenumber", "1")] Geom.point
      = addrPresetEx :=
  matchTags_address_wins addrIdxEx (fun _ => fallbackPointEx) [("addr:housenumber", "1")]
    Geom.point addrPresetEx (by decide) rfl (Or.inl rfl)

/-- C6: ties are broken in favor of the first candidate encountered: a
candidate whose score is equal to (or below) the current maximum leaves the
state, in particular the winning preset, unchanged; only a strictly greater
score replaces the winner. -/
theorem scoreStep_tie_keeps_first (tags : List (String × String)) (st : Int × Option Preset)
    (c : Preset) :
    (c.matchScore tags ≤ st.1 → scoreStep tags st c = st) ∧
    (st.1 < c.matchScore tags → scoreStep tags st c = (c.matchScore tags, some c)) := by
  constructor
  · intro h
    simp only [scoreStep]
    rw [if_neg (not_lt.mpr h)]
  · intro h
    simp only [scoreStep]
    rw [if_pos h]

/-- Witness for C6: a candidate scoring exactly the current maximum does not
overwrite the winner; a strictly higher-scoring candidate does. -/
theorem scoreStep_tie_keeps_first_witness :
    scoreStep [] ((5 : Int), some fallbackPointEx) scoreFiveEx
      = ((5 : Int), some fallbackPointEx) ∧
    scoreStep [] ((3 : Int), none) scoreFiveEx = ((5 : Int), some scoreFiveEx) :=
  ⟨(scoreStep_tie_keeps_first [] ((5 : Int), some fallbackPointEx) scoreFiveEx).1 (by decide),
   (scoreStep_tie_keeps_first [] ((3 : Int), none) scoreFiveEx).2 (by decide)⟩

/-- C10: for every entity whose type is not `'node'`, `allowsVertex` returns
`false` regardless of the entity's tags, the address-line check, and the
external geometry classification. -/
theorem allowsVertex_false_of_not_node (entity : Entity) (addrLine : Bool)
    (geoms : NodeGeoms) (h : entity.type ≠ "node") :
    allowsVertex entity addrLine geoms = false := by
  unfold allowsVertex
  rw [if_pos h]

/-- Witness for C10: a tagged way entity is never vertex-eligible, even with
every other input permissive. -/
theorem allowsVertex_false_of_not_node_witness :
    allowsVertex ⟨"way", [("highway", "residential")]⟩ true ⟨true, true⟩ = false :=
  allowsVertex_false_of_not_node ⟨"way", [("highway", "residential")]⟩ true ⟨true, true⟩
    (by decide)

/-! ## Helper lemmas for the ribbon lists -/

/-- Erasing the first element satisfying `p` lowers the `p`-count by one
(a no-op when nothing satisfies `p`). -/
theorem countP_eraseP_self {α : Type} (p : α → Bool) :
    ∀ (l : List α), List.countP p (l.eraseP p) = List.countP p l - 1 := by
  intro l
  induction l with
  | nil => simp
  | cons a t ih =>
    cases hpa : p a with
    | true => simp [List.eraseP_cons, hpa, List.countP_cons]
    | false =>
      simp [List.eraseP_cons, hpa, List.countP_cons, ih]

/-- When `find?` succeeds, `eraseP` removes exactly one element. -/
theorem length_eraseP_of_found {α : Type} (p : α → Bool) :
    ∀ (l : List α) (a : α), l.find? p = some a → (l.eraseP p).length + 1 = l.length := by
  intro l
  induction l with
  | nil => intro a h; simp at h
  | cons b t ih =>
    intro a h
    cases hpb : p b with
    | true => simp [List.eraseP_cons, hpb]
    | false =>
      rw [List.find?_cons, hpb] at h
      simp only [List.eraseP_cons, hpb, cond_false, List.length_cons]
      rw [ih a h]

/-- A `p`-count of zero is the same as `any p` being false. -/
theorem countP_zero_iff_any_false {α : Type} (p : α → Bool) (l : List α) :
    l.countP p = 0 ↔ l.any p = false := by
  rw [List.countP_eq_zero, List.any_eq_false]

/-- C7 (amended): on a favorites list holding at most one item equal to the
given (preset, geometry), calling `toggleFavorite` twice with the same
arguments restores the prior membership state of that item — including when
the first call evicts a different element at capacity. -/
theorem toggleFavorite_twice_restores_membership (fb : String → String)
    (favs : List RibbonItem) (preset : Preset) (g : String)
    (hdup : favs.countP (fun it => it.matchesKey preset.id (fb g)) ≤ 1) :
    (toggleFavorite fb (toggleFavorite fb favs preset g) preset g).any
        (fun it => it.matchesKey preset.id (fb g))
      = favs.any (fun it => it.matchesKey preset.id (fb g)) := by
  have hnew : RibbonItem.matchesKey ⟨preset.id, fb g, "favorite"⟩ preset.id (fb g) = true := by
    simp [RibbonItem.matchesKey]
  cases h1 : favs.find? (fun it => it.matchesKey preset.id (fb g)) with
  | some it =>
    have hp := List.find?_some h1
    have hmem := List.mem_of_find?_eq_some h1
    have hany : favs.any (fun it => it.matchesKey preset.id (fb g)) = true := by
      rw [List.any_eq_true]
      exact ⟨it, hmem, hp⟩
    have hcpos : 0 < favs.countP (fun it => it.matchesKey preset.id (fb g)) :=
      List.countP_pos_iff.mpr ⟨it, hmem, hp⟩
    have hc0 : (favs.eraseP (fun it => it.matchesKey preset.id (fb g))).countP
        (fun it => it.matchesKey preset.id (fb g)) = 0 := by
      rw [countP_eraseP_self]
      omega
    have hfind2 : (favs.eraseP (fun it => it.matchesKey preset.id (fb g))).find?
        (fun it => it.matchesKey preset.id (fb g)) = none := by
      rw [List.find?_eq_none]
      intro x hx
      have hall := List.countP_eq_zero.mp hc0 x hx
      simpa using hall
    simp only [toggleFavorite, h1, hfind2]
    rw [List.any_append, hany]
    simp [hnew]
  | none =>
    have hz : favs.countP (fun it => it.matchesKey preset.id (fb g)) = 0 :=
      List.countP_eq_zero.mpr (fun a ha => by simpa using List.find?_eq_none.mp h1 a ha)
    have hany : favs.any (fun it => it.matchesKey preset.id (fb g)) = false :=
      (countP_zero_iff_any_false _ _).mp hz
    have hpre : (if favs.length = 10 then favs.dropLast else favs).countP
        (fun it => it.matchesKey preset.id (fb g)) = 0 := by
      split
      · have hsub := (List.dropLast_sublist favs).countP_le
          (fun it => it.matchesKey preset.id (fb g))
        omega
      · exact hz
    have hcount1 : (((if favs.length = 10 then favs.dropLast else favs)
        ++ [⟨preset.id, fb g, "favorite"⟩] : List RibbonItem)).countP
        (fun it => it.matchesKey preset.id (fb g)) = 1 := by
      rw [List.countP_append, hpre]
      simp [List.countP_cons, hnew]
    have hsome : ((((if favs.length = 10 then favs.dropLast else favs)
        ++ [⟨preset.id, fb g, "favorite"⟩] : List RibbonItem)).find?
        (fun it => it.matchesKey preset.id (fb g))).isSome = true := by
      rw [List.find?_isSome]
      exact ⟨⟨preset.id, fb g, "favorite"⟩, by simp, hnew⟩
    obtain ⟨it2, hit2⟩ := Option.isSome_iff_exists.mp hsome
    have hres : ((((if favs.length = 10 then favs.dropLast else favs)
        ++ [⟨preset.id, fb g, "favorite"⟩] : List RibbonItem)).eraseP
        (fun it => it.matchesKey preset.id (fb g))).countP
        (fun it => it.matchesKey preset.id (fb g)) = 0 := by
      rw [countP_eraseP_self, hcount1]
    simp only [toggleFavorite, h1, hit2]
    rw [(countP_zero_iff_any_false _ _).mp hres, hany]


/-- Counterexample for C7 as stated (quantified over every favorites list
state): on a state holding two equal items, toggling twice removes both, so
membership is not restored — and no capacity eviction is involved (the list
holds 2 items, not 10). -/
theorem toggleFavorite_twice_cex :
    dupFavs.length = 2 ∧
    dupFavs.any (fun it => it.matchesKey "x" "point") = true ∧
    (toggleFavorite (fun s => s) (toggleFavorite (fun s => s) dupFavs (mkPEx "x") "point")
        (mkPEx "x") "point").any (fun it => it.matchesKey "x" "point") = false := by
  decide

/-- Witness for C7 (amended): a singleton state, toggled twice at capacity-free
length, keeps the item a member; and a 10-item state without the item
(capacity eviction on the first call) ends with the item absent again. -/
theorem toggleFavorite_twice_restores_membership_witness :
    (toggleFavorite (fun s => s)
        (toggleFavorite (fun s => s) [⟨"x", "point", "favorite"⟩] (mkPEx "x") "point")
        (mkPEx "x") "point").any (fun it => it.matchesKey "x" "point")
      = [(⟨"x", "point", "favorite"⟩ : RibbonItem)].any (fun it => it.matchesKey "x" "point") :=
  toggleFavorite_twice_restores_membership (fun s => s) [⟨"x", "point", "favorite"⟩]
    (mkPEx "x") "point" (by decide)

/-- C8: outside guided-tour mode, with a searchable preset whose
(preset, geometry) already has an equal item in the (within-capacity) recents
list, `setMostRecent` moves that item to the front without duplicating it and
without changing the list length. -/
theorem setMostRecent_moves_existing_to_front (fb : String → String)
    (items : List RibbonItem) (preset : Preset) (g : String) (it : RibbonItem)
    (hsearch : preset.searchable = true)
    (hfind : items.find? (fun x => x.matchesKey preset.id (fb g)) = some it)
    (hcap : items.length ≤ 30) :
    setMostRecent fb false items preset g
        = it :: items.eraseP (fun x => x.matchesKey preset.id (fb g)) ∧
    (setMostRecent fb false items preset g).length = items.length ∧
    (setMostRecent fb false items preset g).countP
        (fun x => x.matchesKey preset.id (fb g))
      = items.countP (fun x => x.matchesKey preset.id (fb g)) := by
  have hlen := length_eraseP_of_found (fun x => x.matchesKey preset.id (fb g)) items it hfind
  have hne : (items.eraseP (fun x => x.matchesKey preset.id (fb g))).length ≠ 30 := by
    omega
  have hp := List.find?_some hfind
  have hmem := List.mem_of_find?_eq_some hfind
  have hcpos : 0 < items.countP (fun x => x.matchesKey preset.id (fb g)) :=
    List.countP_pos_iff.mpr ⟨it, hmem, hp⟩
  have hres : setMostRecent fb false items preset g
      = it :: items.eraseP (fun x => x.matchesKey preset.id (fb g)) := by
    simp only [setMostRecent, hsearch, hfind, Bool.true_eq_false, if_false, if_neg hne]
    simp
  refine ⟨hres, ?_, ?_⟩
  · rw [hres, List.length_cons, hlen]
  · rw [hres, List.countP_cons, countP_eraseP_self]
    simp only [hp, if_pos]
    omega

/-- Witness for C8: a two-item recents list whose second item matches; the
call moves it to the front, keeping length and count. -/
theorem setMostRecent_moves_existing_to_front_witness :
    setMostRecent (fun s => s) false
        [⟨"y", "point", "recent"⟩, ⟨"x", "point", "recent"⟩] (mkPEx "x") "point"
      = (⟨"x", "point", "recent"⟩ : RibbonItem) ::
          List.eraseP (fun x => x.matchesKey (mkPEx "x").id ((fun s => s) "point"))
            [⟨"y", "point", "recent"⟩, ⟨"x", "point", "recent"⟩] ∧
    (setMostRecent (fun s => s) false
        [⟨"y", "point", "recent"⟩, ⟨"x", "point", "recent"⟩] (mkPEx "x") "point").length
      = ([⟨"y", "point", "recent"⟩, ⟨"x", "point", "recent"⟩] : List RibbonItem).length ∧
    (setMostRecent (fun s => s) false
        [⟨"y", "point", "recent"⟩, ⟨"x", "point", "recent"⟩] (mkPEx "x") "point").countP
        (fun x => x.matchesKey (mkPEx "x").id ((fun s => s) "point"))
      = ([⟨"y", "point", "recent"⟩, ⟨"x", "point", "recent"⟩] : List RibbonItem).countP
          (fun x => x.matchesKey (mkPEx "x").id ((fun s => s) "point")) :=
  setMostRecent_moves_existing_to_front (fun s => s)
    [⟨"y", "point", "recent"⟩, ⟨"x", "point", "recent"⟩] (mkPEx "x") "point"
    ⟨"x", "point", "recent"⟩ rfl (by decide) (by decide)

/-- C3 (amended): `addFavorite` appends a new item exactly when no equal
RibbonItem exists, with no capacity check at all: even on a full 10-item list
a new (preset, geometry) is appended, growing the list to 11. -/
theorem addFavorite_appends_without_capacity_check (fb : String → String)
    (preset : Preset) (g : String) :
    (∀ (favs : List RibbonItem) (it : RibbonItem),
      favs.find? (fun x => x.matchesKey preset.id (fb g)) = some it →
      addFavorite fb favs preset g = favs) ∧
    (∀ (favs : List RibbonItem),
      favs.find? (fun x => x.matchesKey preset.id (fb g)) = none →
      addFavorite fb favs preset g = favs ++ [⟨preset.id, fb g, "favorite"⟩] ∧
      (addFavorite fb favs preset g).length = favs.length + 1) := by
  constructor
  · intro favs it h
    simp only [addFavorite, h]
  · intro favs h
    refine ⟨by simp only [addFavorite, h], ?_⟩
    simp only [addFavorite, h, List.length_append, List.length_cons, List.length_nil]


/-- Counterexample for C3 as stated: on a favorites list already holding 10
items, `addFavorite` with a non-present (preset, geometry) does NOT leave list
membership unchanged — the item is appended and the list grows to 11. -/
theorem addFavorite_at_capacity_cex :
    tenFavs.length = 10 ∧
    tenFavs.any (fun x => x.matchesKey "new" "point") = false ∧
    (addFavorite (fun s => s) tenFavs (mkPEx "new") "point").any
        (fun x => x.matchesKey "new" "point") = true ∧
    (addFavorite (fun s => s) tenFavs (mkPEx "new") "point").length = 11 := by
  decide

/-- Witness for C3 (amended): on a present pair the list is unchanged; on the
full 10-item list without the pair, the item is appended and the length
becomes 11. -/
theorem addFavorite_appends_without_capacity_check_witness :
    addFavorite (fun s => s) tenFavs (mkPEx "f1") "point" = tenFavs ∧
    addFavorite (fun s => s) tenFavs (mkPEx "new") "point"
        = tenFavs ++ [⟨(mkPEx "new").id, (fun s => s) "point", "favorite"⟩] ∧
    (addFavorite (fun s => s) tenFavs (mkPEx "new") "point").length = tenFavs.length + 1 :=
  ⟨(addFavorite_appends_without_capacity_check (fun s => s) (mkPEx "f1") "point").1 tenFavs
      ⟨"f1", "point", "favorite"⟩ (by decide),
   (addFavorite_appends_without_capacity_check (fun s => s) (mkPEx "new") "point").2 tenFavs
      (by decide) |>.1,
   ((addFavorite_appends_without_capacity_check (fun s => s) (mkPEx "new") "point").2 tenFavs
      (by decide)).2⟩

/-- `toggleFavorite` preserves the favorites capacity bound: the removal branch
shortens the list; the append branch pops the last element first exactly when
the list already holds 10 items. -/
theorem toggleFavorite_length_le (fb : String → String) (favs : List RibbonItem)
    (preset : Preset) (g : String) (h : favs.length ≤ 10) :
    (toggleFavorite fb favs preset g).length ≤ 10 := by
  cases hf : favs.find? (fun it => it.matchesKey preset.id (fb g)) with
  | some it =>
    simp only [toggleFavorite, hf]
    have := (List.eraseP_sublist (p := fun it => it.matchesKey preset.id (fb g))
      (l := favs)).length_le
    omega
  | none =>
    simp only [toggleFavorite, hf, List.length_append, List.length_cons, List.length_nil]
    by_cases h10 : favs.length = 10
    · rw [if_pos h10, List.length_dropLast]
      omega
    · rw [if_neg h10]
      omega

/-- `setMostRecent` preserves the recents capacity bound. -/
theorem setMostRecent_length_le (fb : String → String) (inIntro : Bool)
    (items : List RibbonItem) (preset : Preset) (g : String) (h : items.length ≤ 30) :
    (setMostRecent fb inIntro items preset g).length ≤ 30 := by
  cases inIntro with
  | true => simpa only [setMostRecent, if_pos rfl] using h
  | false =>
    by_cases hs : preset.searchable = false
    · simp only [setMostRecent, hs]
      simpa using h
    · cases hf : items.find? (fun it => it.matchesKey preset.id (fb g)) with
      | some it =>
        have hlen := length_eraseP_of_found (fun it => it.matchesKey preset.id (fb g))
          items it hf
        have hres : setMostRecent fb false items preset g
            = it :: (if (items.eraseP (fun it => it.matchesKey preset.id (fb g))).length = 30
                then (items.eraseP (fun it => it.matchesKey preset.id (fb g))).dropLast
                else items.eraseP (fun it => it.matchesKey preset.id (fb g))) := by
          simp only [setMostRecent, hs, hf]
          simp
        rw [hres, List.length_cons]
        by_cases h30 : (items.eraseP (fun it => it.matchesKey preset.id (fb g))).length = 30
        · rw [if_pos h30, List.length_dropLast]
          omega
        · rw [if_neg h30]
          omega
      | none =>
        have hres : setMostRecent fb false items preset g
            = (⟨preset.id, fb g, "recent"⟩ : RibbonItem)
                :: (if items.length = 30 then items.dropLast else items) := by
          simp only [setMostRecent, hs, hf]
          simp
        rw [hres, List.length_cons]
        by_cases h30 : items.length = 30
        · rw [if_pos h30, List.length_dropLast]
          omega
        · rw [if_neg h30]
          omega

/-- One non-`addFavorite` ribbon operation preserves both capacity bounds. -/
theorem applyOp_preserves_bounds (fb : String → String)
    (st : List RibbonItem × List RibbonItem) (op : RibbonOp)
    (hop : op.isAddFav = false) (h1 : st.1.length ≤ 10) (h2 : st.2.length ≤ 30) :
    (applyOp fb st op).1.length ≤ 10 ∧ (applyOp fb st op).2.length ≤ 30 := by
  cases op with
  | toggleFav p g =>
    exact ⟨toggleFavorite_length_le fb st.1 p g h1, h2⟩
  | addFav p g =>
    simp [RibbonOp.isAddFav] at hop
  | setRecent p g intro =>
    exact ⟨h1, setMostRecent_length_le fb intro st.2 p g h2⟩

/-- C1 (amended): across any sequence of `toggleFavorite` and `setMostRecent`
operations (no `addFavorite`), from a state within capacity, the favorites
list length never exceeds 10 and the recents list length never exceeds 30. -/
theorem ribbon_capacity_bounds (fb : String → String) (ops : List RibbonOp) :
    ∀ (favs recs : List RibbonItem), (∀ op ∈ ops, op.isAddFav = false) →
    favs.length ≤ 10 → recs.length ≤ 30 →
    (runOps fb (favs, recs) ops).1.length ≤ 10 ∧
    (runOps fb (favs, recs) ops).2.length ≤ 30 := by
  induction ops with
  | nil =>
    intro favs recs _ h1 h2
    exact ⟨h1, h2⟩
  | cons op t ih =>
    intro favs recs hops h1 h2
    have hop : op.isAddFav = false := hops op (by simp)
    have hstep := applyOp_preserves_bounds fb (favs, recs) op hop h1 h2
    have := ih (applyOp fb (favs, recs) op).1 (applyOp fb (favs, recs) op).2
      (fun o ho => hops o (by simp [ho])) hstep.1 hstep.2
    simpa only [runOps, List.foldl_cons] using this


/-- Counterexample for C1 as stated: starting from the default favorites
(3 items), a sequence of eight `addFavorite` operations — add operations the
claim quantifies over — drives the favorites list to length 11 > 10, because
`addFavorite` has no capacity check. -/
theorem ribbon_capacity_cex :
    defaultFavorites.length = 3 ∧
    (runOps (fun s => s) (defaultFavorites, []) addEightOps).1.length = 11 := by
  decide

/-- Witness for C1 (amended): a toggle on a full 10-item list and a recent add
keep both bounds. -/
theorem ribbon_capacity_bounds_witness :
    (runOps (fun s => s) (tenFavs, [])
        [RibbonOp.toggleFav (mkPEx "new") "point",
         RibbonOp.setRecent (mkPEx "r1") "point" false]).1.length ≤ 10 ∧
    (runOps (fun s => s) (tenFavs, [])
        [RibbonOp.toggleFav (mkPEx "new") "point",
         RibbonOp.setRecent (mkPEx "r1") "point" false]).2.length ≤ 30 :=
  ribbon_capacity_bounds (fun s => s)
    [RibbonOp.toggleFav (mkPEx "new") "point",
     RibbonOp.setRecent (mkPEx "r1") "point" false]
    tenFavs [] (by intro op hop; fin_cases hop <;> rfl) (by decide) (by decide)


/-- `addValue` does not change the key set of the map. -/
theorem containsKey_addValue (m : AreaMap) (k0 v0 k : String) :
    containsKey (addValue m k0 v0) k = containsKey m k := by
  induction m with
  | nil => rfl
  | cons e t ih =>
    simp only [addValue, List.map_cons, containsKey, List.any_cons] at *
    rw [← ih]
    by_cases he : (e.1 == k0) = true
    · rw [if_pos he]
    · rw [if_neg he]

/-- One blacklist step does not change the key set. -/
theorem containsKey_blacklistStep (m : AreaMap) (d : Preset) (k : String) :
    containsKey (areaBlacklistStep m d) k = containsKey m k := by
  unfold areaBlacklistStep
  split
  · rfl
  · split_ifs
    · rfl
    · rw [containsKey_addValue]
    · rfl

/-- The whole blacklist pass does not change the key set. -/
theorem containsKey_blacklistFold (k : String) :
    ∀ (l : List Preset) (m : AreaMap),
      containsKey (l.foldl areaBlacklistStep m) k = containsKey m k := by
  intro l
  induction l with
  | nil => intro m; rfl
  | cons d t ih =>
    intro m
    rw [List.foldl_cons, ih, containsKey_blacklistStep]

/-- The whitelist pass never introduces a key of the permanent exclusion
list. -/
theorem containsKey_whitelistFold_ignored (k : String) (hk : k ∈ ignoreKeys) :
    ∀ (l : List Preset) (m : AreaMap),
      containsKey (l.foldl areaWhitelistStep m) k = containsKey m k := by
  intro l
  induction l with
  | nil => intro m; rfl
  | cons d t ih =>
    intro m
    rw [List.foldl_cons, ih]
    unfold areaWhitelistStep
    split
    · rfl
    · rename_i kd vd heq2
      split_ifs with hig harea
      · rfl
      · unfold insertKeyIfAbsent
        split_ifs with hc
        · rfl
        · simp only [containsKey, List.any_append, List.any_cons, List.any_nil]
          have hne2 : (kd == k) = false := by
            rw [beq_eq_false_iff_ne]
            intro he
            rw [he] at hig
            exact hig hk
          simp [hne2]
      · rfl

/-- Every entry produced by the whitelist pass carries an empty blacklist. -/
theorem whitelistFold_entries_nil :
    ∀ (l : List Preset) (m : AreaMap), (∀ e ∈ m, e.2 = ([] : List String)) →
      ∀ e ∈ l.foldl areaWhitelistStep m, e.2 = ([] : List String) := by
  intro l
  induction l with
  | nil => intro m hm; exact hm
  | cons d t ih =>
    intro m hm
    rw [List.foldl_cons]
    refine ih (areaWhitelistStep m d) ?_
    intro e he
    unfold areaWhitelistStep at he
    split at he
    · exact hm e he
    · split_ifs at he with hig harea
      · exact hm e he
      · unfold insertKeyIfAbsent at he
        split_ifs at he with hc
        · exact hm e he
        · rcases List.mem_append.mp he with h1 | h2
          · exact hm e h1
          · simp at h2
            rw [h2]
      · exact hm e he

/-- A member of a blacklist set comes from some entry of the map with the
right key. -/
theorem mem_valuesOf (m : AreaMap) (k v : String) (h : v ∈ valuesOf m k) :
    ∃ e ∈ m, e.1 = k ∧ v ∈ e.2 := by
  unfold valuesOf at h
  cases hf : m.find? (fun e => e.1 == k) with
  | none => rw [hf] at h; simp at h
  | some e =>
    rw [hf] at h
    exact ⟨e, List.mem_of_find?_eq_some hf, by simpa using List.find?_some hf, h⟩

/-- `addValue m k0 v0` preserves an entry-wise property `P` of the blacklist
values, provided `P k0 v0` holds for the added value. -/
theorem addValue_entries (P : String → String → Prop) (m : AreaMap) (k0 v0 : String)
    (hm : ∀ e ∈ m, ∀ v ∈ e.2, P e.1 v) (hnew : P k0 v0) :
    ∀ e ∈ addValue m k0 v0, ∀ v ∈ e.2, P e.1 v := by
  intro e2 he2 v hv
  obtain ⟨e, he, rfl⟩ := List.mem_map.mp he2
  by_cases hk : (e.1 == k0) = true
  · rw [if_pos hk] at hv ⊢
    simp only at hv
    by_cases hvin : v0 ∈ e.2
    · rw [if_pos hvin] at hv
      exact hm e he v hv
    · rw [if_neg hvin] at hv
      rcases List.mem_append.mp hv with h1 | h2
      · exact hm e he v h1
      · simp at h2
        rw [h2, show e.1 = k0 from by simpa using hk]
        exact hnew
  · rw [if_neg hk] at hv ⊢
    exact hm e he v hv

/-- The blacklist pass only ever records values contributed under the C9
conditions. -/
theorem blacklistFold_entries_sound (coll : List Preset) :
    ∀ (l : List Preset) (m : AreaMap),
      (∀ d ∈ l, d ∈ presetsFiltered coll) →
      (∀ e ∈ m, ∀ v ∈ e.2, GoodEntry coll e.1 v) →
      ∀ e ∈ l.foldl areaBlacklistStep m, ∀ v ∈ e.2, GoodEntry coll e.1 v := by
  intro l
  induction l with
  | nil => intro m _ hm; exact hm
  | cons d t ih =>
    intro m hl hm
    rw [List.foldl_cons]
    refine ih (areaBlacklistStep m d) (fun x hx => hl x (List.mem_cons_of_mem d hx)) ?_
    unfold areaBlacklistStep
    split
    · exact hm
    · rename_i kd vd heq
      split_ifs with hig hcond
      · exact hm
      · refine addValue_entries (GoodEntry coll) m kd vd hm ?_
        have hdf := hl d (List.mem_cons_self d t)
        rw [presetsFiltered, List.mem_filter] at hdf
        obtain ⟨hdcoll, hflt⟩ := hdf
        rw [Bool.and_eq_true, Bool.not_eq_true', Bool.not_eq_true'] at hflt
        exact ⟨d, hdcoll, hflt.1, hflt.2, heq, hcond.2.1, hcond.2.2⟩
      · exact hm

/-- C9: `areaKeys()` never contains `barrier`, `highway`, `footway`,
`railway`, or `type` as a top-level key; and every value blacklisted under a
whitelisted key was contributed as the first declared tag key of a
non-suggestion, non-replacement preset supporting line geometry with a
concrete (non-wildcard) value. -/
theorem areaKeys_sound (coll : List Preset) :
    (∀ k, k ∈ ignoreKeys → containsKey (areaKeys coll) k = false) ∧
    (∀ k v, v ∈ valuesOf (areaKeys coll) k → GoodEntry coll k v) := by
  constructor
  · intro k hk
    unfold areaKeys
    rw [containsKey_blacklistFold, containsKey_whitelistFold_ignored k hk]
    rfl
  · intro k v hv
    unfold areaKeys at hv
    have hwl : ∀ e ∈ (presetsFiltered coll).foldl areaWhitelistStep [],
        e.2 = ([] : List String) :=
      whitelistFold_entries_nil (presetsFiltered coll) [] (by intro e he; simp at he)
    have hsound := blacklistFold_entries_sound coll (presetsFiltered coll)
      ((presetsFiltered coll).foldl areaWhitelistStep []) (fun d hd => hd)
      (fun e he v2 hv2 => by rw [hwl e he] at hv2; simp at hv2)
    obtain ⟨e, he, hek, hev⟩ := mem_valuesOf _ k v hv
    have := hsound e he v hev
    rw [hek] at this
    exact this


/-- Witness for C9: on the concrete catalog, `highway` (ignored, though an
area preset declares it) is not a key of the result, and the blacklisted
value `wall` under `building` is traced back to a contributing line preset. -/
theorem areaKeys_sound_witness :
    containsKey (areaKeys areaCollEx) "highway" = false ∧
    GoodEntry areaCollEx "building" "wall" :=
  ⟨(areaKeys_sound areaCollEx).1 "highway" (by decide),
   (areaKeys_sound areaCollEx).2 "building" "wall" (by decide)⟩


/-- The tag loop of the index pass appends one copy of the preset per
occurrence of the key, into the buckets of the given geometry kind only. -/
theorem foldPush_apply (g0 : Geom) (p : Preset) (g : Geom) (k : String) :
    ∀ (tags : List (String × String)) (idx : TagIndex),
      (tags.foldl (fun i kv => pushBucket i g0 kv.1 p) idx) g k
        = idx g k ++ (if g = g0
            then List.replicate (List.count k (tags.map Prod.fst)) p else []) := by
  intro tags
  induction tags with
  | nil =>
    intro idx
    simp
  | cons kv t ih =>
    intro idx
    rw [List.foldl_cons, ih]
    simp only [pushBucket, List.map_cons]
    by_cases hg : g = g0
    · rw [if_pos hg, if_pos hg]
      by_cases hk : k = kv.1
      · rw [if_pos ⟨hg, hk⟩]
        have hbeq : (kv.1 == k) = true := by rw [beq_iff_eq, hk]
        rw [List.count_cons, hbeq, if_pos rfl, List.replicate_succ,
          List.append_assoc, List.singleton_append]
      · rw [if_neg (fun hcon => hk hcon.2)]
        have hbeq : (kv.1 == k) = false := by
          rw [beq_eq_false_iff_ne]
          exact fun he => hk he.symm
        rw [List.count_cons, hbeq]
        simp
    · rw [if_neg (fun hcon => hg hcon.1), if_neg hg, if_neg hg]

/-- Indexing one preset appends one copy of it per matching (geometry, key)
occurrence pair. -/
theorem addPreset_apply (p : Preset) (g : Geom) (k : String) :
    ∀ (geoms : List Geom) (idx : TagIndex),
      (geoms.foldl (fun i g0 => pushTags i g0 p) idx) g k
        = idx g k ++ List.replicate (List.count g geoms * List.count k (tagKeys p)) p := by
  intro geoms
  induction geoms with
  | nil =>
    intro idx
    simp
  | cons g0 gs ih =>
    intro idx
    rw [List.foldl_cons, ih]
    have hpt : pushTags idx g0 p g k
        = idx g k ++ (if g = g0
            then List.replicate (List.count k (tagKeys p)) p else []) :=
      foldPush_apply g0 p g k p.tags idx
    rw [hpt, List.append_assoc]
    congr 1
    by_cases hg : g = g0
    · rw [if_pos hg]
      have hbeq : (g0 == g) = true := by rw [beq_iff_eq, hg]
      rw [List.count_cons, hbeq, if_pos rfl, Nat.succ_mul, Nat.add_comm,
        List.replicate_add]
    · rw [if_neg hg]
      have hbeq : (g0 == g) = false := by
        rw [beq_eq_false_iff_ne]
        exact fun he => hg he.symm
      rw [List.count_cons, hbeq]
      simp

/-- The index pass, run on top of an existing index, appends to each bucket
the per-preset contributions of the whole collection in order — it never
clears anything. -/
theorem buildIndex_apply (g : Geom) (k : String) :
    ∀ (coll : List Preset) (idx : TagIndex),
      buildIndex idx coll g k
        = idx g k ++ coll.flatMap
            (fun p => List.replicate (List.count g p.geometry * List.count k (tagKeys p)) p) := by
  intro coll
  induction coll with
  | nil =>
    intro idx
    simp [buildIndex]
  | cons p ps ih =>
    intro idx
    have h1 : buildIndex idx (p :: ps) = buildIndex (addPresetToIndex idx p) ps := rfl
    rw [h1, ih]
    have h2 : addPresetToIndex idx p g k
        = idx g k ++ List.replicate (List.count g p.geometry * List.count k (tagKeys p)) p :=
      addPreset_apply p g k p.geometry idx
    rw [h2, List.flatMap_cons, List.append_assoc]

/-- With duplicate-free geometry lists and tag keys, each preset contributes
its singleton exactly when it matches the bucket, so a from-empty index pass
produces the filter of the collection. -/
theorem flatMap_replicate_eq_filter (g : Geom) (k : String) :
    ∀ (coll : List Preset), (∀ p ∈ coll, p.geometry.Nodup ∧ (tagKeys p).Nodup) →
      coll.flatMap
          (fun p => List.replicate (List.count g p.geometry * List.count k (tagKeys p)) p)
        = coll.filter (fun p => decide (g ∈ p.geometry) && decide (k ∈ tagKeys p)) := by
  intro coll
  induction coll with
  | nil => intro _; rfl
  | cons p ps ih =>
    intro h
    rw [List.flatMap_cons, ih (fun x hx => h x (List.mem_cons_of_mem p hx))]
    have hp := h p (List.mem_cons_self p ps)
    have hrep : List.replicate (List.count g p.geometry * List.count k (tagKeys p)) p
        = if g ∈ p.geometry ∧ k ∈ tagKeys p then [p] else [] := by
      by_cases hgm : g ∈ p.geometry
      · by_cases hkm : k ∈ tagKeys p
        · rw [List.count_eq_one_of_mem hp.1 hgm, List.count_eq_one_of_mem hp.2 hkm,
            if_pos ⟨hgm, hkm⟩]
          rfl
        · rw [List.count_eq_zero.mpr hkm, Nat.mul_zero, if_neg (fun hc => hkm hc.2)]
          rfl
      · rw [List.count_eq_zero.mpr hgm, Nat.zero_mul, if_neg (fun hc => hgm hc.1)]
        rfl
    rw [hrep, List.filter_cons]
    by_cases hcond : g ∈ p.geometry ∧ k ∈ tagKeys p
    · rw [if_pos hcond]
      have hb : (decide (g ∈ p.geometry) && decide (k ∈ tagKeys p)) = true := by
        simp [hcond.1, hcond.2]
      rw [hb]
      simp
    · rw [if_neg hcond]
      have hb : (decide (g ∈ p.geometry) && decide (k ∈ tagKeys p)) = false := by
        rw [Bool.and_eq_false_iff]
        by_cases hgm : g ∈ p.geometry
        · right
          simp only [decide_eq_false_iff_not]
          exact fun hkm => hcond ⟨hgm, hkm⟩
        · left
          simp only [decide_eq_false_iff_not]
          exact hgm
      rw [hb]
      simp

/-- In-place replacement by id keeps the id sequence of the collection. -/
theorem map_id_replaceFirstById : ∀ (coll : List Preset) (p : Preset),
    (replaceFirstById coll p).map Preset.id = coll.map Preset.id := by
  intro coll p
  induction coll with
  | nil => rfl
  | cons q t ih =>
    unfold replaceFirstById
    by_cases h : q.id = p.id
    · rw [if_pos h]
      simp [h]
    · rw [if_neg h]
      simp [ih]

/-- Members after in-place replacement come from the old collection or are the
new preset. -/
theorem mem_replaceFirstById : ∀ (coll : List Preset) (p x : Preset),
    x ∈ replaceFirstById coll p → x ∈ coll ∨ x = p := by
  intro coll p
  induction coll with
  | nil =>
    intro x h
    simp [replaceFirstById] at h
  | cons q t ih =>
    intro x h
    unfold replaceFirstById at h
    by_cases hq : q.id = p.id
    · rw [if_pos hq] at h
      rcases List.mem_cons.mp h with h1 | h2
      · right; exact h1
      · left; exact List.mem_cons_of_mem q h2
    · rw [if_neg hq] at h
      rcases List.mem_cons.mp h with h1 | h2
      · left
        rw [h1]
        exact List.mem_cons_self q t
      · rcases ih x h2 with h3 | h4
        · left; exact List.mem_cons_of_mem q h3
        · right; exact h4

/-- `upsert` keeps the collection's ids duplicate-free. -/
theorem upsert_ids_nodup (coll : List Preset) (p : Preset)
    (h : (coll.map Preset.id).Nodup) : ((upsert coll p).map Preset.id).Nodup := by
  unfold upsert
  by_cases hc : coll.any (fun q => q.id == p.id) = true
  · rw [if_pos hc, map_id_replaceFirstById]
    exact h
  · rw [if_neg hc, List.map_append, List.nodup_append]
    refine ⟨h, by simp, ?_⟩
    intro x hx hx2
    simp only [List.map_cons, List.map_nil, List.mem_singleton] at hx2
    rcases List.mem_map.mp hx with ⟨q, hq, hqe⟩
    have hcf : coll.any (fun q => q.id == p.id) = false := Bool.eq_false_iff.mpr hc
    have hne := List.any_eq_false.mp hcf q hq
    apply hne
    rw [beq_iff_eq, hqe, hx2]

/-- Members of a built collection come from the accumulator or the catalog. -/
theorem buildCollection_mem : ∀ (d acc : List Preset) (x : Preset),
    x ∈ buildCollection acc d → x ∈ acc ∨ x ∈ d := by
  intro d
  induction d with
  | nil =>
    intro acc x h
    left
    exact h
  | cons p t ih =>
    intro acc x h
    have h2 : x ∈ buildCollection (upsert acc p) t := h
    rcases ih (upsert acc p) x h2 with h1 | h1
    · unfold upsert at h1
      by_cases hc : acc.any (fun q => q.id == p.id) = true
      · rw [if_pos hc] at h1
        rcases mem_replaceFirstById acc p x h1 with h3 | h4
        · left; exact h3
        · right
          rw [h4]
          exact List.mem_cons_self p t
      · rw [if_neg hc] at h1
        rcases List.mem_append.mp h1 with h3 | h4
        · left; exact h3
        · right
          simp only [List.mem_singleton] at h4
          rw [h4]
          exact List.mem_cons_self p t
    · right
      exact List.mem_cons_of_mem p h1

/-- Building the collection keeps ids duplicate-free. -/
theorem buildCollection_ids_nodup : ∀ (d acc : List Preset),
    (acc.map Preset.id).Nodup → ((buildCollection acc d).map Preset.id).Nodup := by
  intro d
  induction d with
  | nil =>
    intro acc h
    exact h
  | cons p t ih =>
    intro acc h
    exact ih (upsert acc p) (upsert_ids_nodup acc p h)

/-- C2 (amended): after `init` (which clears the index before the single index
pass), a preset appears in bucket `index[g][k]` iff it is in the collection,
`g` is in its geometry set and `k` is a key of its tag pattern, and every
bucket is duplicate-free — the hypotheses only rule out duplicated entries
inside one preset's own geometry list or tag keys, which JS object keys and
the catalog's geometry arrays exclude. `build` itself, however, does not clear
the index (see the counterexample for the `fromExternal` double-build path). -/
theorem init_index_invariant (d : List Preset)
    (hnd : ∀ p ∈ d, p.geometry.Nodup ∧ (tagKeys p).Nodup) :
    (∀ (p : Preset) (g : Geom) (k : String),
      p ∈ (init d).index g k ↔
        p ∈ (init d).collection ∧ g ∈ p.geometry ∧ k ∈ tagKeys p) ∧
    (∀ (g : Geom) (k : String), ((init d).index g k).Nodup) := by
  have hidx : ∀ (g : Geom) (k : String), (init d).index g k
      = (buildCollection [] d).flatMap
          (fun p => List.replicate (List.count g p.geometry * List.count k (tagKeys p)) p) := by
    intro g k
    have hb := buildIndex_apply g k (buildCollection [] d) emptyIndex
    simpa [init, build, resetState, emptyIndex] using hb
  constructor
  · intro p g k
    rw [hidx g k, List.mem_flatMap]
    constructor
    · rintro ⟨q, hq, hpq⟩
      rcases List.mem_replicate.mp hpq with ⟨hne, rfl⟩
      refine ⟨hq, ?_, ?_⟩
      · by_contra hng
        rw [List.count_eq_zero.mpr hng, Nat.zero_mul] at hne
        exact hne rfl
      · by_contra hnk
        rw [List.count_eq_zero.mpr hnk, Nat.mul_zero] at hne
        exact hne rfl
    · rintro ⟨hp, hg, hk⟩
      refine ⟨p, hp, ?_⟩
      rw [List.mem_replicate]
      refine ⟨?_, rfl⟩
      have h1 : List.count g p.geometry ≠ 0 := by
        intro h0
        exact (List.count_eq_zero.mp h0) hg
      have h2 : List.count k (tagKeys p) ≠ 0 := by
        intro h0
        exact (List.count_eq_zero.mp h0) hk
      exact Nat.mul_ne_zero h1 h2
  · intro g k
    rw [hidx g k]
    have hmem : ∀ p ∈ buildCollection [] d, p.geometry.Nodup ∧ (tagKeys p).Nodup := by
      intro p hp
      rcases buildCollection_mem d [] p hp with h1 | h2
      · simp at h1
      · exact hnd p h2
    rw [flatMap_replicate_eq_filter g k (buildCollection [] d) hmem]
    refine List.Nodup.filter _ ?_
    refine List.Nodup.of_map Preset.id ?_
    exact buildCollection_ids_nodup d [] (by simp)

/-- Witness for C2 (amended): the one-preset catalog after `init` satisfies
the bucket iff and duplicate-freeness at `point / shop`. -/
theorem init_index_invariant_witness :
    (bakeryP ∈ (init [bakeryP]).index Geom.point "shop" ↔
      bakeryP ∈ (init [bakeryP]).collection ∧ Geom.point ∈ bakeryP.geometry ∧
        "shop" ∈ tagKeys bakeryP) ∧
    ((init [bakeryP]).index Geom.point "shop").Nodup :=
  ⟨(init_index_invariant [bakeryP] (by decide)).1 bakeryP Geom.point "shop",
   (init_index_invariant [bakeryP] (by decide)).2 Geom.point "shop"⟩

/-- Counterexample for C2 as stated: the success path of `fromExternal` runs
`build` twice after one `reset`; since `build` pushes into the existing index
without clearing it, the single catalog preset ends up twice in its bucket,
though the collection holds it once — rebuilds do NOT replace bucket contents
wholesale. -/
theorem rebuild_duplicate_entries_cex :
    (fromExternalSuccess [bakeryP] []).collection = [bakeryP] ∧
    (fromExternalSuccess [bakeryP] []).index Geom.point "shop" = [bakeryP, bakeryP] ∧
    ¬ ((fromExternalSuccess [bakeryP] []).index Geom.point "shop").Nodup := by
  refine ⟨rfl, rfl, ?_⟩
  intro hnd
  exact (List.nodup_cons.mp hnd).1 (List.mem_singleton_self bakeryP)
